import Mathlib

/-!
# kodi: the deferred JSON-RPC notification dispatcher

A shallow embedding of `src/kodi/kodi.go` and the properties of its queue,
its flush cycle and its request function.

Modelling conventions.

* A `*JsonRpcRequest` is an address (`Ref`) into a heap of request records
  (`World.heap`); two queue entries may hold the same address.  The nil
  reference is outside the model.
* `request` mutates its argument in place; here it takes the record and
  returns the mutated record next to its Go result, and the caller stores the
  record back where the pointer came from.
* Everything `request` obtains from outside the program (the clock,
  `json.Marshal`, `http.NewRequest`, `client.Do`, `ioutil.ReadAll`,
  `Body.Close`) is a field of `Net`, indexed by the number of `request` calls
  made so far, so that every behaviour of the outside world is some `Net`.
* `World.log` is ghost state: one `Call` is appended at every call site of
  `request`.  Logger calls have no effect on the state and are left out.
* The order in which `range r.queue` produces keys is not fixed by Go; it is
  an argument (`order`) of the drain, and theorems quantify over every order.
* The mutex only serialises `AddTask` and the drain; the model is sequential,
  every operation being one atomic step.
-/

namespace Kodi

/-- Address of a heap-allocated `JsonRpcRequest` (a non-nil `*JsonRpcRequest`). -/
abbrev Ref := Nat

/-- A Go `error`, identified with its message. -/
abbrev Error := String

/-- A Go `[]byte`. -/
abbrev Bytes := List Nat

/-- Modelled from the spec: the declaration of `JsonRpcRequest` is not in
`kodi.go`; the fields are the four the code and the wire contract name
(`jsonrpc`, `method`, `id`, `params`), the payload being opaque (`none` is the
zero value that the composite literal in `Ping` leaves). -/
structure JsonRpcRequest where
  JsonRpc : String
  Method : String
  Id : String
  Params : Option String
deriving DecidableEq, Repr

/-- Modelled from the spec: `config.KodiConfig` is declared in another package;
these are the five fields `InitKodi` reads. -/
structure KodiConfig where
  Enable : Bool
  JsonRpc : String
  Username : String
  Password : String
  Timeout : Int
deriving DecidableEq, Repr

/-- The queue `map[string]*JsonRpcRequest`: a finite map with unique keys and
no order. -/
abbrev Queue := Finmap (fun _ : String => Ref)

/-- The struct `JsonRpc` (the lock carries no data). -/
structure JsonRpc where
  enable : Bool
  jsonRpc : String
  username : String
  password : String
  timeout : Int
  queue : Queue
deriving DecidableEq

/-- Either a normal return with a value, or a panic carrying an error. -/
inductive Outcome (α : Type) where
  | ret (a : α)
  | panic (e : Error)
deriving DecidableEq, Repr

/-- The `*http.Request` that `request` hands to `client.Do`, with the client
timeout (in seconds). -/
structure HttpRequest where
  method : String
  url : String
  body : Bytes
  user : String
  pass : String
  contentType : String
  timeoutSec : Int
deriving DecidableEq, Repr

/-- What `request` observes of an `*http.Response`: the status, what
`ioutil.ReadAll(resp.Body)` returns (bytes read and error), and what
`Body.Close()` returns. -/
structure Response where
  StatusCode : Int
  Status : String
  body : Bytes
  readErr : Option Error
  closeErr : Option Error
deriving DecidableEq, Repr

/-- The outside world as `request` sees it; the `Nat` is the number of
`request` calls made before this one. -/
structure Net where
  now : Nat → String
  marshal : JsonRpcRequest → Except Error Bytes
  newRequest : String → Option Error
  Do : Nat → HttpRequest → Except Error Response

/-- The Go result `([]byte, error)` of `request`; `none` is nil. -/
abbrev Reply := Option Bytes × Option Error

/-- Ghost record of one call of `request`. -/
structure Call where
  entry : Option (String × Ref)
  pending : Queue
  sent : JsonRpcRequest
  result : Outcome Reply
deriving DecidableEq

/-- The heap of request records and the ghost log of `request` calls, oldest
first. -/
structure World where
  heap : Ref → JsonRpcRequest
  log : List Call

/-- `InitKodi`: the dispatcher stored in the global `Rpc`. -/
def InitKodi (c : KodiConfig) : JsonRpc :=
  { enable := c.Enable
    jsonRpc := c.JsonRpc
    username := c.Username
    password := c.Password
    timeout := c.Timeout
    queue := ∅ }

/-- `len(r.queue)`. -/
def JsonRpc.len (r : JsonRpc) : Nat := Multiset.card r.queue.entries

/-- `JsonRpc.AddTask`: the dispatcher after the call and the returned bool. -/
def AddTask (r : JsonRpc) (name : String) (req : Ref) : JsonRpc × Bool :=
  if !r.enable then (r, false)
  else
    let r1 := if (r.queue.lookup name).isSome then r
              else { r with queue := r.queue.insert name req }
    (r1, true)

/-- A sequence of `AddTask` calls, each one atomic, with the returned bools. -/
def addTasks : JsonRpc → List (String × Ref) → JsonRpc × List Bool
  | r, [] => (r, [])
  | r, c :: cs =>
    let s := AddTask r c.1 c.2
    let t := addTasks s.1 cs
    (t.1, s.2 :: t.2)

/-- Lines 95-101 of `request`: the two defaulting assignments. -/
def defaulting (now : String) (rpcReq : JsonRpcRequest) : JsonRpcRequest :=
  let q1 := if rpcReq.JsonRpc = "" then { rpcReq with JsonRpc := "2.0" } else rpcReq
  if q1.Id = "" then { q1 with Id := now } else q1

/-- Lines 108-119 of `request`: the POST request with basic authentication and
the JSON content type, and the timeout of the client that sends it. -/
def newHttpRequest (r : JsonRpc) (jsonBytes : Bytes) : HttpRequest :=
  { method := "POST", url := r.jsonRpc, body := jsonBytes,
    user := r.username, pass := r.password,
    contentType := "application/json", timeoutSec := r.timeout }

/-- `JsonRpc.request` as its `n`-th call: the record as the call leaves it, and
the result.  The deferred `Body.Close` runs after the result is chosen and
replaces it by a panic when closing fails. -/
def request (net : Net) (r : JsonRpc) (n : Nat) (rpcReq : JsonRpcRequest) :
    JsonRpcRequest × Outcome Reply :=
  let q := defaulting (net.now n) rpcReq
  (q,
    match net.marshal q with
    | .error e => .ret (none, some e)
    | .ok jsonBytes =>
      match net.newRequest r.jsonRpc with
      | some e => .ret (none, some e)
      | none =>
        match net.Do n (newHttpRequest r jsonBytes) with
        | .error e => .ret (none, some e)
        | .ok resp =>
          let result : Reply :=
            if resp.StatusCode ≠ 200 then (none, some resp.Status)
            else (some resp.body, resp.readErr)
          match resp.closeErr with
          | some e => .panic e
          | none => .ret result)

/-- The literal `&JsonRpcRequest{Method: "JSONRPC.Ping"}`. -/
def pingRequest : JsonRpcRequest :=
  { JsonRpc := "", Method := "JSONRPC.Ping", Id := "", Params := none }

/-- `JsonRpc.Ping`: the request record is local, so the heap is untouched. -/
def Ping (net : Net) (w : World) (r : JsonRpc) : World × Outcome Bool :=
  let p := request net r w.log.length pingRequest
  let w1 : World :=
    { w with log := w.log ++ [{ entry := none, pending := r.queue, sent := p.1, result := p.2 }] }
  match p.2 with
  | .panic e => (w1, .panic e)
  | .ret (_, err) => (w1, .ret err.isNone)

/-- The loop `for k, req := range r.queue` of the task closure, visiting the
keys in `order`.  A key that is no longer in the map is not produced. -/
def drain (net : Net) : World → JsonRpc → List String → World × JsonRpc × Outcome Unit
  | w, r, [] => (w, r, .ret ())
  | w, r, k :: ks =>
    match r.queue.lookup k with
    | none => drain net w r ks
    | some a =>
      let p := request net r w.log.length (w.heap a)
      let w1 : World :=
        { heap := Function.update w.heap a p.1
          log := w.log ++ [{ entry := some (k, a), pending := r.queue, sent := p.1, result := p.2 }] }
      match p.2 with
      | .panic e => (w1, r, .panic e)
      | .ret (_, some err) => (w1, r, .panic err)
      | .ret (_, none) => drain net w1 { r with queue := r.queue.erase k } ks

/-- The closure `task` of `RunNotify`: one flush cycle. -/
def task (net : Net) (w : World) (r : JsonRpc) (order : List String) :
    World × JsonRpc × Outcome Unit :=
  if r.len = 0 then (w, r, .ret ())
  else
    match Ping net w r with
    | (w1, .panic e) => (w1, r, .panic e)
    | (w1, .ret false) => (w1, r, .ret ())
    | (w1, .ret true) => drain net w1 r order

/-- The `for { select { case <-ticker.C: task() } }` loop over the ticks
received so far, one range order per tick; a panic ends it. -/
def tickLoop (net : Net) : World → JsonRpc → List (List String) → World × JsonRpc × Outcome Unit
  | w, r, [] => (w, r, .ret ())
  | w, r, o :: os =>
    match task net w r o with
    | (w1, r1, .ret ()) => tickLoop net w1 r1 os
    | (w1, r1, .panic e) => (w1, r1, .panic e)

/-- `JsonRpc.RunNotify` observed after the given ticks.  Disabled, it returns
at once; enabled, it never returns, and the result is the state reached after
the last of the ticks (or at the panic). -/
def RunNotify (net : Net) (w : World) (r : JsonRpc) (ticks : List (List String)) :
    World × JsonRpc × Outcome Unit :=
  if !r.enable then (w, r, .ret ())
  else tickLoop net w r ticks

/-! ## Vocabulary of the statements -/

/-- The call returned with a nil error. -/
def Call.ok (c : Call) : Bool :=
  match c.result with
  | .ret (_, none) => true
  | _ => false

/-- The queue entry stored under `k`, as a pair. -/
def entryOf (q : Queue) (k : String) : Option (String × Ref) :=
  (q.lookup k).map (fun a => (k, a))

/-- The queue with the given keys deleted. -/
def eraseKeys (ks : List String) (q : Queue) : Queue :=
  ks.foldl (fun m k => m.erase k) q

/-- A range order of the queue: every key once. -/
def IsRangeOrder (q : Queue) (order : List String) : Prop :=
  order.Nodup ∧ ∀ k, k ∈ order ↔ k ∈ q

/-- Number of entries of the queue stored under `name`. -/
def entriesUnder (q : Queue) (name : String) : Nat :=
  Multiset.card (q.entries.filter (fun e => e.1 = name))

/-- The queue after enqueuing the calls in turn on an enabled dispatcher. -/
def enqueueAll : Queue → List (String × Ref) → Queue
  | q, [] => q
  | q, c :: cs => enqueueAll (if (q.lookup c.1).isSome then q else q.insert c.1 c.2) cs

/-- The world after the drain has called `request` on the entry `(k, a)`: the
record is stored back at `a` and the call is logged. -/
def sendWorld (net : Net) (w : World) (r : JsonRpc) (k : String) (a : Ref) : World :=
  { heap := Function.update w.heap a (request net r w.log.length (w.heap a)).1
    log := w.log ++ [{ entry := some (k, a), pending := r.queue,
                       sent := (request net r w.log.length (w.heap a)).1,
                       result := (request net r w.log.length (w.heap a)).2 }] }

/-- A description of one run of the drain: its calls, those that returned a
nil error (`okcalls`, for the keys `pre`), and the keys not visited or not
completed (`post`). -/
structure DrainRun (net : Net) (w : World) (r : JsonRpc) (order : List String)
    (calls okcalls : List Call) (pre post : List String) : Prop where
  log : (drain net w r order).1.log = w.log ++ calls
  split : order = pre ++ post
  rpc : (drain net w r order).2.1 = { r with queue := eraseKeys pre r.queue }
  okEntries : okcalls.map Call.entry = pre.map (entryOf r.queue)
  okAll : ∀ c ∈ okcalls, c.ok = true
  finish :
    ((drain net w r order).2.2 = .ret () ∧ post = [] ∧ calls = okcalls) ∨
    (∃ k rest c e, post = k :: rest ∧ calls = okcalls ++ [c] ∧
      c.entry = entryOf r.queue k ∧ c.ok = false ∧
      (drain net w r order).2.2 = .panic e ∧
      (c.result = .panic e ∨ ∃ b, c.result = .ret (b, some e)))
  pending : ∀ c ∈ calls, ∀ x, x ∈ c.pending → x ∈ r.queue
  chain : List.Chain'
    (fun c d => c.ok = true ∧ ∀ k a, c.entry = some (k, a) → k ∉ d.pending) calls
  origin : ∀ c ∈ calls, ∃ k a n q, c.entry = some (k, a) ∧ r.queue.lookup k = some a ∧
    q.Method = (w.heap a).Method ∧ q.Params = (w.heap a).Params ∧
    c.result = (request net r n q).2 ∧ c.sent = (request net r n q).1
  heap : ∀ a, ((drain net w r order).1.heap a).Method = (w.heap a).Method ∧
    ((drain net w r order).1.heap a).Params = (w.heap a).Params

/-! ## Concrete inputs -/

/-- The configuration of the end-to-end scenario. -/
def cfgOn : KodiConfig :=
  { Enable := true, JsonRpc := "http://host/jsonrpc", Username := "kodi", Password := "pw", Timeout := 5 }

/-- The same configuration with the feature switched off. -/
def cfgOff : KodiConfig := { cfgOn with Enable := false }

/-- An enabled dispatcher with one queued task. -/
def rpcScan : JsonRpc := (AddTask (InitKodi cfgOn) "library-scan" 0).1

/-- The heap of the scenarios: address 0 holds the scan task, every other
address a clean task, none with version or id assigned yet. -/
def heap0 : Ref → JsonRpcRequest := fun a =>
  { JsonRpc := "", Method := if a = 0 then "VideoLibrary.Scan" else "VideoLibrary.Clean",
    Id := "", Params := none }

/-- The world before any call of `request`. -/
def world0 : World := { heap := heap0, log := [] }

/-- An enabled dispatcher with two queued tasks. -/
def rpcTwo : JsonRpc := (AddTask rpcScan "library-clean" 1).1

/-- A response with status 200 whose body reads and closes without error. -/
def resp200 : Response :=
  { StatusCode := 200, Status := "200 OK", body := [111, 107], readErr := none, closeErr := none }

/-- A response with status 500. -/
def resp500 : Response :=
  { StatusCode := 500, Status := "500 Internal Server Error", body := [], readErr := none,
    closeErr := none }

/-- An endpoint that answers every call with status 200. -/
def netOk : Net :=
  { now := fun _ => "2024-01-01 00:00:00 +0000 UTC"
    marshal := fun q => .ok (q.Method.toList.map Char.toNat)
    newRequest := fun _ => none
    Do := fun _ _ => .ok resp200 }

/-- An endpoint that cannot be reached. -/
def netDown : Net := { netOk with Do := fun _ _ => .error "connection refused" }

/-- An endpoint that answers every call with status 500. -/
def net500 : Net := { netOk with Do := fun _ _ => .ok resp500 }

/-- An endpoint that answers with status 200 and whose body fails to close. -/
def netCloseFails : Net :=
  { netOk with Do := fun _ _ => .ok { resp200 with closeErr := some "close failed" } }

/-- An endpoint that answers the first call and then drops the connection. -/
def netFirstOnly : Net :=
  { netOk with Do := fun n _ => if n = 0 then .ok resp200 else .error "connection reset" }

/-! ## Lemmas on the queue -/

theorem len_eq_zero_iff (r : JsonRpc) : r.len = 0 ↔ r.queue = ∅ := by
  unfold JsonRpc.len
  rw [Multiset.card_eq_zero]
  constructor
  · intro h
    exact Finmap.ext (by rw [h]; rfl)
  · intro h
    rw [h]; rfl

theorem entriesUnder_of_lookup {q : Queue} {name : String} {a : Ref}
    (h : q.lookup name = some a) : entriesUnder q name = 1 := by
  unfold entriesUnder
  have hnd : (q.entries.filter (fun e => e.1 = name)).Nodup :=
    Multiset.Nodup.filter _ q.nodup_entries
  have hs : q.entries.filter (fun e => e.1 = name) = {Sigma.mk name a} := by
    refine Multiset.Nodup.ext hnd (Multiset.nodup_singleton _) |>.2 ?_
    intro e
    rw [Multiset.mem_filter, Multiset.mem_singleton]
    constructor
    · rintro ⟨he, hk⟩
      obtain ⟨k, b⟩ := e
      simp only at hk
      subst hk
      have hb : q.lookup k = some b := Finmap.mem_lookup_iff.2 he
      rw [h] at hb
      cases hb
      rfl
    · rintro rfl
      exact ⟨Finmap.mem_lookup_iff.1 h, rfl⟩
  rw [hs]
  rfl

theorem AddTask_disabled (r : JsonRpc) (name : String) (req : Ref)
    (h : r.enable = false) : AddTask r name req = (r, false) := by
  simp [AddTask, h]

theorem AddTask_present (r : JsonRpc) (name : String) (req a : Ref)
    (hen : r.enable = true) (h : r.queue.lookup name = some a) :
    AddTask r name req = (r, true) := by
  simp [AddTask, hen, h]

theorem AddTask_absent (r : JsonRpc) (name : String) (req : Ref)
    (hen : r.enable = true) (h : name ∉ r.queue) :
    AddTask r name req = ({ r with queue := r.queue.insert name req }, true) := by
  have h0 : r.queue.lookup name = none := Finmap.lookup_eq_none.2 h
  simp [AddTask, hen, h0]


theorem addTasks_enabled (r : JsonRpc) (hen : r.enable = true) (calls : List (String × Ref)) :
    addTasks r calls =
      ({ r with queue := enqueueAll r.queue calls }, List.replicate calls.length true) := by
  induction calls generalizing r with
  | nil => rfl
  | cons c cs ih =>
    obtain ⟨en, j, u, p, t, q⟩ := r
    simp only at hen
    subst hen
    by_cases h : (q.lookup c.1).isSome
    · have h1 : AddTask ⟨true, j, u, p, t, q⟩ c.1 c.2 = (⟨true, j, u, p, t, q⟩, true) := by
        simp [AddTask, h]
      simp only [addTasks, h1, enqueueAll, h, if_true]
      rw [ih ⟨true, j, u, p, t, q⟩ rfl]
      simp [List.replicate_succ]
    · have h1 : AddTask ⟨true, j, u, p, t, q⟩ c.1 c.2 =
          (⟨true, j, u, p, t, q.insert c.1 c.2⟩, true) := by
        simp [AddTask, h]
      simp only [addTasks, h1, enqueueAll, h, if_false]
      rw [ih ⟨true, j, u, p, t, q.insert c.1 c.2⟩ rfl]
      simp [List.replicate_succ]

theorem lookup_enqueueAll (q : Queue) (calls : List (String × Ref)) (k : String) :
    (enqueueAll q calls).lookup k = (q.lookup k <|> calls.lookup k) := by
  induction calls generalizing q with
  | nil => simp [enqueueAll]
  | cons c cs ih =>
    obtain ⟨n, a⟩ := c
    simp only [enqueueAll]
    rw [ih]
    by_cases hk : k = n
    · subst hk
      cases h : q.lookup k with
      | some b => simp [h, List.lookup]
      | none => simp [h, List.lookup, Finmap.lookup_insert]
    · have hb : (k == n) = false := by simpa using hk
      cases h : q.lookup n with
      | some b => simp [h, List.lookup, hb]
      | none => simp [h, List.lookup, hb, Finmap.lookup_insert_of_ne _ hk]

theorem lookup_calls_none {calls : List (String × Ref)} {k : String}
    (h : k ∉ calls.map Prod.fst) : calls.lookup k = none := by
  induction calls with
  | nil => rfl
  | cons c cs ih =>
    obtain ⟨n, a⟩ := c
    simp only [List.map_cons, List.mem_cons, not_or] at h
    have hb : (k == n) = false := by simpa using h.1
    simp [List.lookup, hb, ih h.2]

theorem lookup_calls_of_mem {calls : List (String × Ref)}
    (hnd : (calls.map Prod.fst).Nodup) {c : String × Ref} (hc : c ∈ calls) :
    calls.lookup c.1 = some c.2 := by
  induction calls with
  | nil => cases hc
  | cons d ds ih =>
    obtain ⟨n, a⟩ := d
    simp only [List.map_cons, List.nodup_cons] at hnd
    rcases List.mem_cons.1 hc with rfl | hmem
    · simp [List.lookup]
    · have hne : c.1 ≠ n := by
        rintro rfl
        exact hnd.1 (List.mem_map_of_mem _ hmem)
      have hb : (c.1 == n) = false := by simpa using hne
      simp [List.lookup, hb, ih hnd.2 hmem]

theorem len_enqueueAll (q : Queue) (calls : List (String × Ref))
    (hnd : (calls.map Prod.fst).Nodup) (habs : ∀ c ∈ calls, c.1 ∉ q) :
    Multiset.card (enqueueAll q calls).entries = Multiset.card q.entries + calls.length := by
  induction calls generalizing q with
  | nil => rfl
  | cons c cs ih =>
    obtain ⟨n, a⟩ := c
    simp only [List.map_cons, List.nodup_cons] at hnd
    have hn : n ∉ q := habs (n, a) (List.mem_cons_self _ _)
    have h0 : q.lookup n = none := Finmap.lookup_eq_none.2 hn
    simp only [enqueueAll, h0, Option.isSome_none, Bool.false_eq_true, if_false]
    rw [ih _ hnd.2, Finmap.insert_entries_of_neg hn]
    · simp only [Multiset.card_cons, List.length_cons]; omega
    · intro c hc hmem
      rcases Finmap.mem_insert.1 hmem with h | h
      · exact hnd.1 (h ▸ List.mem_map_of_mem _ hc)
      · exact habs c (List.mem_cons_of_mem _ hc) h


theorem addTasks_disabled (r : JsonRpc) (hen : r.enable = false) (calls : List (String × Ref)) :
    addTasks r calls = (r, List.replicate calls.length false) := by
  induction calls with
  | nil => rfl
  | cons c cs ih =>
    simp only [addTasks, AddTask_disabled r c.1 c.2 hen, ih]
    simp [List.replicate_succ]

/-! ## Lemmas on the drain -/

theorem request_Method (net : Net) (r : JsonRpc) (n : Nat) (q : JsonRpcRequest) :
    (request net r n q).1.Method = q.Method := by
  simp only [request, defaulting]
  by_cases h1 : q.JsonRpc = "" <;> by_cases h2 : q.Id = "" <;> simp [h1, h2]

theorem request_Params (net : Net) (r : JsonRpc) (n : Nat) (q : JsonRpcRequest) :
    (request net r n q).1.Params = q.Params := by
  simp only [request, defaulting]
  by_cases h1 : q.JsonRpc = "" <;> by_cases h2 : q.Id = "" <;> simp [h1, h2]

theorem request_queue (net : Net) (r : JsonRpc) (q : Queue) (n : Nat) (x : JsonRpcRequest) :
    request net { r with queue := q } n x = request net r n x := rfl

theorem drain_cons_panic (net : Net) (w : World) (r : JsonRpc) (k : String) (ks : List String)
    (a : Ref) (e : Error) (ha : r.queue.lookup k = some a)
    (hp : (request net r w.log.length (w.heap a)).2 = .panic e) :
    drain net w r (k :: ks) = (sendWorld net w r k a, r, .panic e) := by
  simp only [drain, ha, sendWorld]
  rw [hp]

theorem drain_cons_err (net : Net) (w : World) (r : JsonRpc) (k : String) (ks : List String)
    (a : Ref) (b : Option Bytes) (e : Error) (ha : r.queue.lookup k = some a)
    (hp : (request net r w.log.length (w.heap a)).2 = .ret (b, some e)) :
    drain net w r (k :: ks) = (sendWorld net w r k a, r, .panic e) := by
  simp only [drain, ha, sendWorld]
  rw [hp]

theorem drain_cons_ok (net : Net) (w : World) (r : JsonRpc) (k : String) (ks : List String)
    (a : Ref) (b : Option Bytes) (ha : r.queue.lookup k = some a)
    (hp : (request net r w.log.length (w.heap a)).2 = .ret (b, none)) :
    drain net w r (k :: ks) =
      drain net (sendWorld net w r k a) { r with queue := r.queue.erase k } ks := by
  simp only [drain, ha, sendWorld]
  rw [hp]

theorem sendWorld_heap (net : Net) (w : World) (r : JsonRpc) (k : String) (a x : Ref) :
    ((sendWorld net w r k a).heap x).Method = (w.heap x).Method ∧
    ((sendWorld net w r k a).heap x).Params = (w.heap x).Params := by
  simp only [sendWorld]
  by_cases hx : x = a
  · subst hx
    simp [request_Method, request_Params]
  · simp [Function.update_noteq hx]

theorem lookup_eraseKeys (ks : List String) (q : Queue) (x : String) :
    (eraseKeys ks q).lookup x = if x ∈ ks then none else q.lookup x := by
  induction ks generalizing q with
  | nil => simp [eraseKeys]
  | cons k ks ih =>
    have h : eraseKeys (k :: ks) q = eraseKeys ks (q.erase k) := rfl
    rw [h, ih]
    by_cases hx : x = k
    · subst hx
      simp [Finmap.lookup_erase]
    · by_cases hm : x ∈ ks
      · simp [hm]
      · simp [hm, hx, Finmap.lookup_erase_ne hx]

theorem entryOf_erase {q : Queue} {k x : String} (h : x ≠ k) :
    entryOf (q.erase k) x = entryOf q x := by
  simp [entryOf, Finmap.lookup_erase_ne h]

theorem drain_run_fail (net : Net) (w : World) (r : JsonRpc) (k : String) (ks : List String)
    (a : Ref) (e : Error) (ha : r.queue.lookup k = some a)
    (hd : drain net w r (k :: ks) = (sendWorld net w r k a, r, .panic e))
    (hres : (request net r w.log.length (w.heap a)).2 = .panic e ∨
      ∃ b, (request net r w.log.length (w.heap a)).2 = .ret (b, some e)) :
    DrainRun net w r (k :: ks)
      [{ entry := some (k, a), pending := r.queue,
         sent := (request net r w.log.length (w.heap a)).1,
         result := (request net r w.log.length (w.heap a)).2 }] [] [] (k :: ks) where
  log := by rw [hd]; rfl
  split := rfl
  rpc := by rw [hd]; rfl
  okEntries := rfl
  okAll := by simp
  finish := by
    refine Or.inr ⟨k, ks, _, e, rfl, rfl, ?_, ?_, ?_, hres⟩
    · simp [entryOf, ha]
    · rcases hres with h | ⟨b, h⟩ <;> simp [Call.ok, h]
    · rw [hd]
  pending := by
    intro c hc x hx
    rw [List.mem_singleton] at hc
    subst hc
    exact hx
  chain := List.chain'_singleton _
  origin := by
    intro c hc
    rw [List.mem_singleton] at hc
    subst hc
    exact ⟨k, a, w.log.length, w.heap a, rfl, ha, rfl, rfl, rfl, rfl⟩
  heap := by
    intro x
    rw [hd]
    exact sendWorld_heap net w r k a x

theorem drain_run (net : Net) : ∀ (order : List String) (w : World) (r : JsonRpc),
    order.Nodup → (∀ k ∈ order, k ∈ r.queue) →
    ∃ calls okcalls pre post, DrainRun net w r order calls okcalls pre post := by
  intro order
  induction order with
  | nil =>
    intro w r _ _
    refine ⟨[], [], [], [], ?_⟩
    exact
      { log := by simp [drain]
        split := rfl
        rpc := rfl
        okEntries := rfl
        okAll := by simp
        finish := Or.inl ⟨rfl, rfl, rfl⟩
        pending := by simp
        chain := List.chain'_nil
        origin := by simp
        heap := fun _ => ⟨rfl, rfl⟩ }
  | cons k ks ih =>
    intro w r hnd hmem
    obtain ⟨hk, hks⟩ := List.nodup_cons.1 hnd
    obtain ⟨a, ha⟩ := Finmap.mem_iff.1 (hmem k (List.mem_cons_self _ _))
    cases hres : (request net r w.log.length (w.heap a)).2 with
    | panic e =>
      exact ⟨_, _, _, _, drain_run_fail net w r k ks a e ha
        (drain_cons_panic net w r k ks a e ha hres) (Or.inl hres)⟩
    | ret reply =>
      obtain ⟨b, err⟩ := reply
      cases err with
      | some e =>
        exact ⟨_, _, _, _, drain_run_fail net w r k ks a e ha
          (drain_cons_err net w r k ks a b e ha hres) (Or.inr ⟨b, hres⟩)⟩
      | none =>
        have hd := drain_cons_ok net w r k ks a b ha hres
        have hmem1 : ∀ x ∈ ks, x ∈ ({ r with queue := r.queue.erase k } : JsonRpc).queue := by
          intro x hx
          refine Finmap.mem_erase.2 ⟨?_, hmem x (List.mem_cons_of_mem _ hx)⟩
          rintro rfl
          exact hk hx
        obtain ⟨calls, okcalls, pre, post, R⟩ :=
          ih (sendWorld net w r k a) { r with queue := r.queue.erase k } hks hmem1
        have hpre : ∀ x ∈ pre, x ≠ k := by
          intro x hx
          rintro rfl
          exact hk (by rw [R.split]; exact List.mem_append_left _ hx)
        have hpost : ∀ x ∈ post, x ≠ k := by
          intro x hx
          rintro rfl
          exact hk (by rw [R.split]; exact List.mem_append_right _ hx)
        refine ⟨{ entry := some (k, a), pending := r.queue,
                  sent := (request net r w.log.length (w.heap a)).1,
                  result := (request net r w.log.length (w.heap a)).2 } :: calls,
                { entry := some (k, a), pending := r.queue,
                  sent := (request net r w.log.length (w.heap a)).1,
                  result := (request net r w.log.length (w.heap a)).2 } :: okcalls,
                k :: pre, post, ?_⟩
        exact
          { log := by
              rw [hd, R.log]
              simp [sendWorld]
            split := by rw [R.split]; rfl
            rpc := by rw [hd, R.rpc]; rfl
            okEntries := by
              have h1 : pre.map (entryOf (r.queue.erase k)) = pre.map (entryOf r.queue) :=
                List.map_congr_left (fun x hx => entryOf_erase (hpre x hx))
              have h2 := R.okEntries
              simp only [h1] at h2
              simp [h2, entryOf, ha]
            okAll := by
              intro c hc
              rcases List.mem_cons.1 hc with rfl | hc
              · simp [Call.ok, hres]
              · exact R.okAll c hc
            finish := by
              rcases R.finish with ⟨h1, h2, h3⟩ | ⟨x, rest, c, e, h1, h2, h3, h4, h5, h6⟩
              · exact Or.inl ⟨by rw [hd]; exact h1, h2, by rw [h3]⟩
              · refine Or.inr ⟨x, rest, c, e, h1, by rw [h2]; rfl, ?_, h4, by rw [hd]; exact h5, h6⟩
                rw [h3]
                exact entryOf_erase (hpost x (by rw [h1]; exact List.mem_cons_self _ _))
            pending := by
              intro c hc x hx
              rcases List.mem_cons.1 hc with rfl | hc
              · exact hx
              · exact (Finmap.mem_erase.1 (R.pending c hc x hx)).2
            chain := by
              rw [List.chain'_cons']
              refine ⟨?_, R.chain⟩
              intro d hd2
              refine ⟨by simp [Call.ok, hres], ?_⟩
              intro k2 a2 he hin
              simp only [Option.some.injEq, Prod.mk.injEq] at he
              have hdm : d ∈ calls := List.mem_of_mem_head? hd2
              have := (Finmap.mem_erase.1 (R.pending d hdm k2 hin)).1
              exact this he.1.symm
            origin := by
              intro c hc
              rcases List.mem_cons.1 hc with rfl | hc
              · exact ⟨k, a, w.log.length, w.heap a, rfl, ha, rfl, rfl, rfl, rfl⟩
              · obtain ⟨k2, a2, n, q, h1, h2, h3, h4, h5, h6⟩ := R.origin c hc
                have hne : k2 ≠ k := (Finmap.mem_erase.1 (Finmap.mem_of_lookup_eq_some h2)).1
                refine ⟨k2, a2, n, q, h1, ?_, ?_, ?_, h5, h6⟩
                · rw [← h2]
                  exact (Finmap.lookup_erase_ne hne).symm
                · rw [h3]; exact (sendWorld_heap net w r k a a2).1
                · rw [h4]; exact (sendWorld_heap net w r k a a2).2
            heap := by
              intro x
              rw [hd]
              exact ⟨(R.heap x).1.trans (sendWorld_heap net w r k a x).1,
                     (R.heap x).2.trans (sendWorld_heap net w r k a x).2⟩ }

theorem entryOf_eq_some {q : Queue} {x k : String} {a : Ref}
    (h : entryOf q x = some (k, a)) : x = k ∧ q.lookup k = some a := by
  unfold entryOf at h
  cases hx : q.lookup x with
  | none => simp [hx] at h
  | some b =>
    simp only [hx, Option.map_some', Option.some.injEq, Prod.mk.injEq] at h
    obtain ⟨rfl, rfl⟩ := h
    exact ⟨rfl, hx⟩

theorem filter_entry_nil {q : Queue} {k : String} {a : Ref} {order : List String}
    {calls : List Call} (h : calls.map Call.entry = order.map (entryOf q)) (hk : k ∉ order) :
    calls.filter (fun c => c.entry = some (k, a)) = [] := by
  rw [List.filter_eq_nil_iff]
  intro c hc he
  have he2 : c.entry = some (k, a) := by simpa using he
  have hm : c.entry ∈ order.map (entryOf q) := h ▸ List.mem_map_of_mem _ hc
  obtain ⟨x, hx, hxe⟩ := List.mem_map.1 hm
  rw [he2] at hxe
  exact hk ((entryOf_eq_some hxe).1 ▸ hx)

theorem filter_entry_one {q : Queue} {k : String} {a : Ref} :
    ∀ (order : List String) (calls : List Call),
      calls.map Call.entry = order.map (entryOf q) → order.Nodup → k ∈ order →
      q.lookup k = some a →
      (calls.filter (fun c => c.entry = some (k, a))).length = 1 := by
  intro order
  induction order with
  | nil => intro calls _ _ hk; cases hk
  | cons x xs ih =>
    intro calls h hnd hk ha
    cases calls with
    | nil => simp at h
    | cons c cs =>
      simp only [List.map_cons, List.cons.injEq] at h
      obtain ⟨hx, hxs⟩ := List.nodup_cons.1 hnd
      by_cases hxk : x = k
      · subst hxk
        have hc : c.entry = some (x, a) := by rw [h.1]; simp [entryOf, ha]
        simp [List.filter_cons, hc, filter_entry_nil h.2 hx]
      · have hkx : k ∈ xs := by
          rcases List.mem_cons.1 hk with h1 | h1
          · exact absurd h1.symm hxk
          · exact h1
        have hc : ¬ c.entry = some (k, a) := by
          intro he
          rw [h.1] at he
          exact hxk (entryOf_eq_some he).1
        simp [List.filter_cons, hc, ih cs h.2 hxs hkx ha]

theorem eraseKeys_all {q : Queue} {order : List String} (h : ∀ k, k ∈ q → k ∈ order) :
    eraseKeys order q = ∅ := by
  apply Finmap.ext_lookup
  intro x
  rw [lookup_eraseKeys, Finmap.lookup_empty]
  by_cases hx : x ∈ order
  · simp [hx]
  · simp only [hx, if_false]
    exact Finmap.lookup_eq_none.2 (fun hq => hx (h x hq))

theorem len_eq_order_length {r : JsonRpc} {order : List String}
    (h : IsRangeOrder r.queue order) : r.len = order.length := by
  have hk : r.queue.keys = order.toFinset := by
    ext x
    rw [Finmap.mem_keys, List.mem_toFinset]
    exact (h.2 x).symm
  have hc : r.queue.keys.card = Multiset.card r.queue.entries := by
    show Multiset.card r.queue.entries.keys = _
    simp [Multiset.keys]
  rw [JsonRpc.len, ← hc, hk, List.toFinset_card_of_nodup h.1]

theorem task_of_ping_ok (net : Net) (w : World) (r : JsonRpc) (order : List String)
    (hne : r.len ≠ 0) (b : Option Bytes)
    (hp : (request net r w.log.length pingRequest).2 = .ret (b, none)) :
    task net w r order =
      drain net
        { w with log := w.log ++ [{ entry := none, pending := r.queue,
                                    sent := (request net r w.log.length pingRequest).1,
                                    result := (request net r w.log.length pingRequest).2 }] }
        r order := by
  simp [task, hne, Ping, hp]

/-! ## Lemmas on the flush cycle -/

theorem task_of_len_zero (net : Net) (w : World) (r : JsonRpc) (order : List String)
    (h : r.len = 0) : task net w r order = (w, r, .ret ()) := by
  simp [task, h]

theorem tickLoop_of_len_zero (net : Net) (w : World) (r : JsonRpc) (ticks : List (List String))
    (h : r.len = 0) : tickLoop net w r ticks = (w, r, .ret ()) := by
  induction ticks with
  | nil => rfl
  | cons o os ih => simp only [tickLoop, task_of_len_zero net w r o h, ih]

theorem request_fails_of_transport (net : Net) (r : JsonRpc) (n : Nat) (q : JsonRpcRequest)
    (h : (∃ jsonBytes e, net.marshal (defaulting (net.now n) q) = .ok jsonBytes ∧
            net.newRequest r.jsonRpc = none ∧
            net.Do n (newHttpRequest r jsonBytes) = .error e) ∨
         (∃ jsonBytes resp, net.marshal (defaulting (net.now n) q) = .ok jsonBytes ∧
            net.newRequest r.jsonRpc = none ∧
            net.Do n (newHttpRequest r jsonBytes) = .ok resp ∧ resp.StatusCode ≠ 200)) :
    ∀ b, (request net r n q).2 ≠ .ret (b, none) := by
  intro b
  rcases h with ⟨jb, e, hm, hn, hd⟩ | ⟨jb, resp, hm, hn, hd, hs⟩
  · simp [request, hm, hn, hd]
  · cases hc : resp.closeErr with
    | none => simp [request, hm, hn, hd, hs, hc]
    | some e => simp [request, hm, hn, hd, hc]

theorem task_of_ping_fails (net : Net) (w : World) (r : JsonRpc) (order : List String)
    (hne : r.len ≠ 0)
    (hf : ∀ b, (request net r w.log.length pingRequest).2 ≠ .ret (b, none)) :
    (task net w r order).1 =
      { w with log := w.log ++ [{ entry := none, pending := r.queue,
                                  sent := (request net r w.log.length pingRequest).1,
                                  result := (request net r w.log.length pingRequest).2 }] } ∧
    (task net w r order).2.1 = r ∧
    ((task net w r order).2.2 = .ret () ∨
      ∃ e, (task net w r order).2.2 = .panic e ∧
        (request net r w.log.length pingRequest).2 = .panic e) := by
  generalize hp : request net r w.log.length pingRequest = p at hf
  obtain ⟨q1, res⟩ := p
  cases res with
  | panic e => simp [task, hne, Ping, hp]
  | ret a =>
    obtain ⟨b, err⟩ := a
    cases err with
    | none => exact absurd rfl (hf b)
    | some e => simp [task, hne, Ping, hp]

theorem RunNotify_single (net : Net) (w : World) (r : JsonRpc) (order : List String)
    (hen : r.enable = true) : RunNotify net w r [order] = task net w r order := by
  simp only [RunNotify, hen, Bool.not_true, Bool.false_eq_true, if_false, tickLoop]
  generalize task net w r order = t
  obtain ⟨w1, r1, out⟩ := t
  cases out with
  | ret u => rfl
  | panic e => rfl

/-! ## The claims -/

/-- C1: on an enabled dispatcher, AddTask under a name already in the queue
returns true and leaves the dispatcher exactly as it was: the entry under the
name is still the request queued first, the new request is not stored and the
size is unchanged.  Hence two AddTask calls with one name, whatever the queue
was before, leave exactly one entry under that name, the second call changing
nothing; when the name was new, that entry holds the first request. -/
theorem C1_addTask_duplicate_is_noop (r : JsonRpc) (name : String) (hen : r.enable = true) :
    (∀ req0 req : Ref, r.queue.lookup name = some req0 →
        AddTask r name req = (r, true) ∧
        (AddTask r name req).1.queue.lookup name = some req0 ∧
        (AddTask r name req).1.len = r.len ∧
        entriesUnder (AddTask r name req).1.queue name = 1) ∧
    (∀ a b : Ref,
        AddTask (AddTask r name a).1 name b = ((AddTask r name a).1, true) ∧
        entriesUnder (AddTask (AddTask r name a).1 name b).1.queue name = 1 ∧
        (name ∉ r.queue →
          (AddTask (AddTask r name a).1 name b).1.queue.lookup name = some a ∧
          (AddTask (AddTask r name a).1 name b).1.len = r.len + 1)) := by
  constructor
  · intro req0 req h
    rw [AddTask_present r name req req0 hen h]
    exact ⟨rfl, h, rfl, entriesUnder_of_lookup h⟩
  · intro a b
    by_cases hin : name ∈ r.queue
    · obtain ⟨c, hc⟩ := Finmap.mem_iff.1 hin
      rw [AddTask_present r name a c hen hc, AddTask_present r name b c hen hc]
      exact ⟨rfl, entriesUnder_of_lookup hc, fun h => absurd hin h⟩
    · rw [AddTask_absent r name a hen hin]
      have hl : (r.queue.insert name a).lookup name = some a := Finmap.lookup_insert _
      have h2 : AddTask { r with queue := r.queue.insert name a } name b =
          ({ r with queue := r.queue.insert name a }, true) :=
        AddTask_present { r with queue := r.queue.insert name a } name b a hen hl
      simp only [h2]
      refine ⟨trivial, entriesUnder_of_lookup hl, fun _ => ⟨hl, ?_⟩⟩
      simp [JsonRpc.len, Finmap.insert_entries_of_neg hin]

/-- Witness of C1 on the dispatcher holding the task library-scan. -/
theorem C1_addTask_duplicate_is_noop_witness :
    rpcScan.enable = true ∧ rpcScan.queue.lookup "library-scan" = some 0 ∧
    AddTask rpcScan "library-scan" 7 = (rpcScan, true) :=
  ⟨by decide, by decide,
    ((C1_addTask_duplicate_is_noop rpcScan "library-scan" (by decide)).1 0 7 (by decide)).1⟩

/-- C2: on a disabled dispatcher AddTask returns false and changes nothing,
and every sequence of AddTask calls on the dispatcher that InitKodi builds from
a disabled configuration returns only false and leaves the queue empty, of
size 0. -/
theorem C2_addTask_disabled (r : JsonRpc) (name : String) (req : Ref)
    (hen : r.enable = false) :
    AddTask r name req = (r, false) ∧
    (∀ calls : List (String × Ref),
        (addTasks r calls).1 = r ∧ (addTasks r calls).2 = List.replicate calls.length false) ∧
    (∀ (c : KodiConfig) (calls : List (String × Ref)), c.Enable = false →
        (addTasks (InitKodi c) calls).1 = InitKodi c ∧
        (addTasks (InitKodi c) calls).1.queue = ∅ ∧
        (addTasks (InitKodi c) calls).1.len = 0 ∧
        (addTasks (InitKodi c) calls).2 = List.replicate calls.length false) := by
  refine ⟨AddTask_disabled r name req hen, ?_, ?_⟩
  · intro calls
    rw [addTasks_disabled r hen calls]
    exact ⟨rfl, rfl⟩
  · intro c calls hc
    rw [addTasks_disabled (InitKodi c) hc calls]
    exact ⟨rfl, rfl, rfl, rfl⟩

/-- Witness of C2 on the dispatcher built from the disabled configuration. -/
theorem C2_addTask_disabled_witness :
    (InitKodi cfgOff).enable = false ∧
    AddTask (InitKodi cfgOff) "library-scan" 0 = (InitKodi cfgOff, false) :=
  ⟨by decide, (C2_addTask_disabled (InitKodi cfgOff) "library-scan" 0 (by decide)).1⟩

/-- C3: on an enabled dispatcher, AddTask calls (each one atomic) whose names
are pairwise distinct and absent from the queue all return true; afterwards
every name holds exactly one entry, the request passed with it, every other
key is as before, the size has grown by the number of calls, and any other
order of the same calls gives the same dispatcher and the same results. -/
theorem C3_addTask_distinct_names (r : JsonRpc) (calls : List (String × Ref))
    (hen : r.enable = true) (hnd : (calls.map Prod.fst).Nodup)
    (habs : ∀ c ∈ calls, c.1 ∉ r.queue) :
    (addTasks r calls).2 = List.replicate calls.length true ∧
    (∀ c ∈ calls, (addTasks r calls).1.queue.lookup c.1 = some c.2 ∧
        entriesUnder (addTasks r calls).1.queue c.1 = 1) ∧
    (∀ k, k ∉ calls.map Prod.fst →
        (addTasks r calls).1.queue.lookup k = r.queue.lookup k) ∧
    (addTasks r calls).1.len = r.len + calls.length ∧
    (∀ calls2 : List (String × Ref), calls2.Perm calls →
        (addTasks r calls2).1 = (addTasks r calls).1 ∧
        (addTasks r calls2).2 = List.replicate calls.length true) := by
  have hlook : ∀ c ∈ calls, (enqueueAll r.queue calls).lookup c.1 = some c.2 := by
    intro c hc
    rw [lookup_enqueueAll, Finmap.lookup_eq_none.2 (habs c hc), lookup_calls_of_mem hnd hc]
    rfl
  rw [addTasks_enabled r hen calls]
  refine ⟨rfl, fun c hc => ⟨hlook c hc, entriesUnder_of_lookup (hlook c hc)⟩, ?_, ?_, ?_⟩
  · intro k hk
    show (enqueueAll r.queue calls).lookup k = _
    rw [lookup_enqueueAll, lookup_calls_none hk]
    cases r.queue.lookup k <;> rfl
  · exact len_enqueueAll r.queue calls hnd habs
  · intro calls2 hp
    rw [addTasks_enabled r hen calls2, hp.length_eq]
    refine ⟨?_, rfl⟩
    have hnd2 : (calls2.map Prod.fst).Nodup := (hp.map Prod.fst).nodup_iff.2 hnd
    have hq : enqueueAll r.queue calls2 = enqueueAll r.queue calls := by
      apply Finmap.ext_lookup
      intro k
      rw [lookup_enqueueAll, lookup_enqueueAll]
      by_cases hk : k ∈ calls.map Prod.fst
      · obtain ⟨c, hc, rfl⟩ := List.mem_map.1 hk
        rw [lookup_calls_of_mem hnd hc, lookup_calls_of_mem hnd2 (hp.mem_iff.2 hc)]
      · have hk2 : k ∉ calls2.map Prod.fst := fun h => hk ((hp.map Prod.fst).mem_iff.1 h)
        rw [lookup_calls_none hk, lookup_calls_none hk2]
    rw [hq]

/-- Witness of C3: two new names enqueued after library-scan. -/
theorem C3_addTask_distinct_names_witness :
    rpcScan.enable = true ∧
    (addTasks rpcScan [("clean", 1), ("refresh", 2)]).1.len = rpcScan.len + 2 ∧
    (addTasks rpcScan [("refresh", 2), ("clean", 1)]).1 =
      (addTasks rpcScan [("clean", 1), ("refresh", 2)]).1 :=
  ⟨by decide,
    (C3_addTask_distinct_names rpcScan [("clean", 1), ("refresh", 2)]
      (by decide) (by decide) (by decide)).2.2.2.1,
    ((C3_addTask_distinct_names rpcScan [("clean", 1), ("refresh", 2)]
      (by decide) (by decide) (by decide)).2.2.2.2 [("refresh", 2), ("clean", 1)]
      (by decide)).1⟩

/-- C4: on an enabled dispatcher with a non-empty queue, when the ping returns
a nil error and request returns a nil error for every queued request, one
flush cycle makes the ping call and then, in the range order, one call of
request per queued entry: each entry is the target of exactly one call, every
call besides the ping has a queued entry as target, the number of sends is the
queue size, the queue is empty afterwards and the cycle returns normally. -/
theorem C4_flush_sends_each_entry_once (net : Net) (w : World) (r : JsonRpc)
    (order : List String) (hen : r.enable = true) (hne : r.len ≠ 0)
    (hord : IsRangeOrder r.queue order)
    (hping : ∃ b, (request net r w.log.length pingRequest).2 = .ret (b, none))
    (hsend : ∀ k a n q, r.queue.lookup k = some a →
      q.Method = (w.heap a).Method → q.Params = (w.heap a).Params →
      ∃ b, (request net r n q).2 = .ret (b, none)) :
    ∃ ping calls,
      (RunNotify net w r [order]).1.log = w.log ++ ping :: calls ∧
      ping.entry = none ∧ ping.sent.Method = "JSONRPC.Ping" ∧
      calls.map Call.entry = order.map (entryOf r.queue) ∧
      (∀ k a, r.queue.lookup k = some a →
        (calls.filter (fun c => c.entry = some (k, a))).length = 1) ∧
      (∀ c ∈ calls, c.ok = true ∧ ∃ k a, c.entry = some (k, a) ∧ r.queue.lookup k = some a) ∧
      calls.length = r.len ∧
      (RunNotify net w r [order]).2.1.queue = ∅ ∧
      (RunNotify net w r [order]).2.1.len = 0 ∧
      (RunNotify net w r [order]).2.2 = .ret () := by
  obtain ⟨b, hb⟩ := hping
  rw [RunNotify_single net w r order hen, task_of_ping_ok net w r order hne b hb]
  obtain ⟨calls, okcalls, pre, post, R⟩ :=
    drain_run net order
      { w with log := w.log ++ [{ entry := none, pending := r.queue,
                                  sent := (request net r w.log.length pingRequest).1,
                                  result := (request net r w.log.length pingRequest).2 }] }
      r hord.1 (fun k hk => (hord.2 k).1 hk)
  have hok : ∀ c ∈ calls, c.ok = true := by
    intro c hc
    obtain ⟨k, a, n, q, _, h2, h3, h4, h5, _⟩ := R.origin c hc
    obtain ⟨b2, hb2⟩ := hsend k a n q h2 h3 h4
    simp [Call.ok, h5, hb2]
  rcases R.finish with ⟨h1, h2, h3⟩ | ⟨k, rest, c, e, _, h2, _, h4, _, _⟩
  · have hpre : pre = order := by rw [R.split, h2, List.append_nil]
    have hent : calls.map Call.entry = order.map (entryOf r.queue) := by
      rw [h3, R.okEntries, hpre]
    have hq : eraseKeys pre r.queue = ∅ := by
      rw [hpre]
      exact eraseKeys_all (fun k hk => (hord.2 k).2 hk)
    refine ⟨{ entry := none, pending := r.queue,
              sent := (request net r w.log.length pingRequest).1,
              result := (request net r w.log.length pingRequest).2 }, calls, ?_, rfl,
      request_Method net r w.log.length pingRequest, hent, ?_, ?_, ?_, ?_, ?_, h1⟩
    · rw [R.log]
      simp
    · intro k a ha
      exact filter_entry_one order calls hent hord.1
        ((hord.2 k).2 (Finmap.mem_of_lookup_eq_some ha)) ha
    · intro c hc
      obtain ⟨k, a, _, _, h5, h6, _⟩ := R.origin c hc
      exact ⟨hok c hc, k, a, h5, h6⟩
    · have hl := congrArg List.length hent
      simp only [List.length_map] at hl
      rw [hl, len_eq_order_length hord]
    · rw [R.rpc]
      exact hq
    · rw [R.rpc]
      exact (len_eq_zero_iff _).2 hq
  · have hc : c ∈ calls := by rw [h2]; simp
    rw [hok c hc] at h4
    cases h4

/-- Witness of C4: the end-to-end scenario, one scan task and an endpoint that
answers 200. -/
theorem C4_flush_sends_each_entry_once_witness :
    ∃ ping calls,
      (RunNotify netOk world0 rpcScan [["library-scan"]]).1.log = world0.log ++ ping :: calls ∧
      calls.length = rpcScan.len ∧
      (RunNotify netOk world0 rpcScan [["library-scan"]]).2.1.queue = ∅ := by
  obtain ⟨ping, calls, h1, _, _, _, _, _, h7, h8, _⟩ :=
    C4_flush_sends_each_entry_once netOk world0 rpcScan ["library-scan"]
      (by decide) (by decide) ⟨by decide, by
        intro k
        have hq : rpcScan.queue = Finmap.singleton "library-scan" 0 := by decide
        rw [hq, Finmap.mem_singleton, List.mem_singleton]⟩
      ⟨some [111, 107], rfl⟩
      (fun k a n q _ _ _ => ⟨some [111, 107], rfl⟩)
  exact ⟨ping, calls, h1, h7, h8⟩

/-- C5: on an enabled dispatcher with a non-empty queue, when the ping does
not return a nil error (in particular when the exchange fails or answers with
a status other than 200), the flush cycle makes the ping call and no other
call of request, so sends no queued task, and leaves the heap of request
records and the dispatcher as they were: same keys, same requests with the
same fields, same size.  The cycle then returns, unless the ping itself
panicked. -/
theorem C5_ping_failure_keeps_queue (net : Net) (w : World) (r : JsonRpc) (order : List String)
    (hen : r.enable = true) (hne : r.len ≠ 0)
    (hfail : (∀ b, (request net r w.log.length pingRequest).2 ≠ .ret (b, none)) ∨
      (∃ jsonBytes e,
        net.marshal (defaulting (net.now w.log.length) pingRequest) = .ok jsonBytes ∧
        net.newRequest r.jsonRpc = none ∧
        net.Do w.log.length (newHttpRequest r jsonBytes) = .error e) ∨
      (∃ jsonBytes resp,
        net.marshal (defaulting (net.now w.log.length) pingRequest) = .ok jsonBytes ∧
        net.newRequest r.jsonRpc = none ∧
        net.Do w.log.length (newHttpRequest r jsonBytes) = .ok resp ∧ resp.StatusCode ≠ 200)) :
    (RunNotify net w r [order]).1.heap = w.heap ∧
    (RunNotify net w r [order]).1.log =
      w.log ++ [{ entry := none, pending := r.queue,
                  sent := (request net r w.log.length pingRequest).1,
                  result := (request net r w.log.length pingRequest).2 }] ∧
    (RunNotify net w r [order]).2.1 = r ∧
    (∀ k, (RunNotify net w r [order]).2.1.queue.lookup k = r.queue.lookup k) ∧
    (RunNotify net w r [order]).2.1.len = r.len ∧
    ((RunNotify net w r [order]).2.2 = .ret () ∨
      ∃ e, (RunNotify net w r [order]).2.2 = .panic e ∧
        (request net r w.log.length pingRequest).2 = .panic e) := by
  have hf : ∀ b, (request net r w.log.length pingRequest).2 ≠ .ret (b, none) := by
    rcases hfail with h | h
    · exact h
    · exact request_fails_of_transport net r w.log.length pingRequest h
  obtain ⟨h1, h2, h3⟩ := task_of_ping_fails net w r order hne hf
  rw [RunNotify_single net w r order hen, h1, h2]
  exact ⟨rfl, rfl, rfl, fun _ => rfl, rfl, h3⟩

/-- Witness of C5: the scan task stays queued when the ping is answered 500. -/
theorem C5_ping_failure_keeps_queue_witness :
    rpcScan.enable = true ∧ rpcScan.len ≠ 0 ∧
    (RunNotify net500 world0 rpcScan [["library-scan"]]).2.1 = rpcScan ∧
    (RunNotify net500 world0 rpcScan [["library-scan"]]).2.1.len = rpcScan.len :=
  ⟨by decide, by decide,
    (C5_ping_failure_keeps_queue net500 world0 rpcScan ["library-scan"] (by decide) (by decide)
      (Or.inr (Or.inr ⟨[74, 83, 79, 78, 82, 80, 67, 46, 80, 105, 110, 103], resp500,
        rfl, rfl, rfl, by decide⟩))).2.2.1,
    (C5_ping_failure_keeps_queue net500 world0 rpcScan ["library-scan"] (by decide) (by decide)
      (Or.inr (Or.inr ⟨[74, 83, 79, 78, 82, 80, 67, 46, 80, 105, 110, 103], resp500,
        rfl, rfl, rfl, by decide⟩))).2.2.2.2.1⟩

/-- C6: when the dispatcher is disabled or its queue is empty, RunNotify, over
any number of ticks and any range orders, makes no call of request (no ping, no
send) and leaves the heap and the dispatcher, queue included, as they were; so
does a single run of the task closure on an empty queue. -/
theorem C6_cycle_noop (net : Net) (w : World) (r : JsonRpc) (ticks : List (List String))
    (h : r.enable = false ∨ r.len = 0) :
    RunNotify net w r ticks = (w, r, .ret ()) ∧
    (RunNotify net w r ticks).1.log = w.log ∧
    (RunNotify net w r ticks).2.1.queue = r.queue ∧
    (∀ order, r.len = 0 → task net w r order = (w, r, .ret ())) := by
  have h1 : RunNotify net w r ticks = (w, r, .ret ()) := by
    rcases h with h | h
    · simp [RunNotify, h]
    · by_cases hen : r.enable = true
      · simp [RunNotify, hen, tickLoop_of_len_zero net w r ticks h]
      · simp [RunNotify, hen]
  rw [h1]
  exact ⟨rfl, rfl, rfl, fun order h0 => task_of_len_zero net w r order h0⟩

/-- Witness of C6: a disabled dispatcher and an enabled one with an empty queue. -/
theorem C6_cycle_noop_witness :
    (RunNotify netOk world0 (InitKodi cfgOff) [[], []]).1.log = [] ∧
    (RunNotify netOk world0 (InitKodi cfgOn) [[], []]).1.log = [] :=
  ⟨(C6_cycle_noop netOk world0 (InitKodi cfgOff) [[], []] (Or.inl (by decide))).2.1,
   (C6_cycle_noop netOk world0 (InitKodi cfgOn) [[], []] (Or.inr (by decide))).2.1⟩

/-- C7: the record that request leaves has the version "2.0" when it had none
and its own version otherwise, the clock value as id when it had none and its
own id otherwise, and the method and the parameters it came with; both
defaulted fields are non-empty as soon as the clock value is. -/
theorem C7_request_defaulting (net : Net) (r : JsonRpc) (n : Nat) (q : JsonRpcRequest) :
    (request net r n q).1.JsonRpc = (if q.JsonRpc = "" then "2.0" else q.JsonRpc) ∧
    (request net r n q).1.Id = (if q.Id = "" then net.now n else q.Id) ∧
    (request net r n q).1.Method = q.Method ∧
    (request net r n q).1.Params = q.Params ∧
    (net.now n ≠ "" → (request net r n q).1.JsonRpc ≠ "" ∧ (request net r n q).1.Id ≠ "") := by
  simp only [request, defaulting]
  by_cases h1 : q.JsonRpc = "" <;> by_cases h2 : q.Id = "" <;> simp [h1, h2]

/-- Witness of C7 on the ping record. -/
theorem C7_request_defaulting_witness :
    netOk.now 0 ≠ "" ∧
    (request netOk rpcScan 0 pingRequest).1.JsonRpc ≠ "" ∧
    (request netOk rpcScan 0 pingRequest).1.Id ≠ "" :=
  ⟨by decide, (C7_request_defaulting netOk rpcScan 0 pingRequest).2.2.2.2 (by decide)⟩

/-- C8 as stated fails: the exchange completes with status 200 and the body is
read without error, yet request does not return the body: closing the body
fails and request panics. -/
theorem C8_close_failure_counterexample :
    netCloseFails.marshal (defaulting (netCloseFails.now 0) pingRequest)
      = .ok [74, 83, 79, 78, 82, 80, 67, 46, 80, 105, 110, 103] ∧
    netCloseFails.newRequest rpcScan.jsonRpc = none ∧
    netCloseFails.Do 0 (newHttpRequest rpcScan [74, 83, 79, 78, 82, 80, 67, 46, 80, 105, 110, 103])
      = .ok { resp200 with closeErr := some "close failed" } ∧
    resp200.StatusCode = 200 ∧ resp200.readErr = none ∧
    (request netCloseFails rpcScan 0 pingRequest).2 = .panic "close failed" ∧
    (request netCloseFails rpcScan 0 pingRequest).2 ≠ .ret (some resp200.body, none) :=
  ⟨rfl, rfl, rfl, rfl, rfl, rfl, by decide⟩

/-- C8, amended: once the request is marshalled and built, if the exchange
fails request returns no bytes and the underlying error; if it completes and
closing the body reports no error, request returns the full body and no error
for status 200 with the body read without error, and no bytes and the status
text as error for every other status; if closing the body reports an error,
request panics with it. -/
theorem C8_request_result (net : Net) (r : JsonRpc) (n : Nat) (q : JsonRpcRequest)
    (jsonBytes : Bytes)
    (hm : net.marshal (defaulting (net.now n) q) = .ok jsonBytes)
    (hn : net.newRequest r.jsonRpc = none) :
    (∀ e, net.Do n (newHttpRequest r jsonBytes) = .error e →
        (request net r n q).2 = .ret (none, some e)) ∧
    (∀ resp, net.Do n (newHttpRequest r jsonBytes) = .ok resp → resp.closeErr = none →
        resp.StatusCode = 200 → resp.readErr = none →
        (request net r n q).2 = .ret (some resp.body, none)) ∧
    (∀ resp, net.Do n (newHttpRequest r jsonBytes) = .ok resp → resp.closeErr = none →
        resp.StatusCode ≠ 200 →
        (request net r n q).2 = .ret (none, some resp.Status)) ∧
    (∀ resp e, net.Do n (newHttpRequest r jsonBytes) = .ok resp → resp.closeErr = some e →
        (request net r n q).2 = .panic e) := by
  refine ⟨?_, ?_, ?_, ?_⟩
  · intro e hd
    simp [request, hm, hn, hd]
  · intro resp hd hc hs hr
    simp [request, hm, hn, hd, hc, hs, hr]
  · intro resp hd hc hs
    simp [request, hm, hn, hd, hc, hs]
  · intro resp e hd hc
    simp [request, hm, hn, hd, hc]

/-- Witness of C8 on the endpoint that answers 200 and the one that answers 500. -/
theorem C8_request_result_witness :
    (request netOk rpcScan 0 pingRequest).2 = .ret (some [111, 107], none) ∧
    (request net500 rpcScan 0 pingRequest).2 = .ret (none, some "500 Internal Server Error") :=
  ⟨(C8_request_result netOk rpcScan 0 pingRequest
      [74, 83, 79, 78, 82, 80, 67, 46, 80, 105, 110, 103] rfl rfl).2.1
      resp200 rfl rfl rfl rfl,
   (C8_request_result net500 rpcScan 0 pingRequest
      [74, 83, 79, 78, 82, 80, 67, 46, 80, 105, 110, 103] rfl rfl).2.2.1
      resp500 rfl rfl (by decide)⟩

/-- C9 as stated fails: the send of the only queued entry is attempted and
returns a transport error; the drain panics and the entry is still queued. -/
theorem C9_failed_send_stays_queued_counterexample :
    (drain netDown world0 rpcScan ["library-scan"]).1.log.map (fun c => (c.entry, c.result))
      = [(some ("library-scan", 0), .ret (none, some "connection refused"))] ∧
    (drain netDown world0 rpcScan ["library-scan"]).2.1.queue.lookup "library-scan" = some 0 ∧
    (drain netDown world0 rpcScan ["library-scan"]).2.2 = .panic "connection refused" := by
  decide

/-- C9, amended: for every queue, range order and transport behaviour, every
entry whose send returned a nil error during the drain is no longer in the
queue afterwards, while an entry whose send did not (it returned an error or
panicked) is still queued under its name when the drain ends. -/
theorem C9_sent_entries_removed_when_ok (net : Net) (w : World) (r : JsonRpc)
    (order : List String) (hord : IsRangeOrder r.queue order) (calls : List Call)
    (hlog : (drain net w r order).1.log = w.log ++ calls) :
    ∀ c ∈ calls, ∀ k a, c.entry = some (k, a) →
      (c.ok = true → k ∉ (drain net w r order).2.1.queue) ∧
      (c.ok = false → (drain net w r order).2.1.queue.lookup k = some a) := by
  obtain ⟨calls2, okcalls, pre, post, R⟩ :=
    drain_run net order w r hord.1 (fun k hk => (hord.2 k).1 hk)
  have hcalls : calls = calls2 := List.append_cancel_left (hlog.symm.trans R.log)
  subst hcalls
  have hin : ∀ c ∈ okcalls, ∀ k a, c.entry = some (k, a) → k ∈ pre := by
    intro c hc k a he
    have hm : c.entry ∈ pre.map (entryOf r.queue) := R.okEntries ▸ List.mem_map_of_mem _ hc
    obtain ⟨x, hx, hxe⟩ := List.mem_map.1 hm
    rw [he] at hxe
    exact (entryOf_eq_some hxe).1 ▸ hx
  have hgone : ∀ c ∈ okcalls, ∀ k a, c.entry = some (k, a) →
      k ∉ (drain net w r order).2.1.queue := by
    intro c hc k a he
    rw [R.rpc]
    apply Finmap.lookup_eq_none.1
    show (eraseKeys pre r.queue).lookup k = none
    rw [lookup_eraseKeys]
    simp [hin c hc k a he]
  intro c hc k a he
  rcases R.finish with ⟨_, _, h3⟩ | ⟨x, rest, d, e, h1, h2, h3, h4, _, _⟩
  · rw [h3] at hc
    exact ⟨fun _ => hgone c hc k a he, fun hf => by rw [R.okAll c hc] at hf; cases hf⟩
  · rw [h2, List.mem_append, List.mem_singleton] at hc
    rcases hc with hc | rfl
    · exact ⟨fun _ => hgone c hc k a he, fun hf => by rw [R.okAll c hc] at hf; cases hf⟩
    · refine ⟨fun ht => absurd (h4.symm.trans ht) (by decide), fun _ => ?_⟩
      rw [he] at h3
      obtain ⟨hxk, hka⟩ := entryOf_eq_some h3.symm
      subst hxk
      have hnd := hord.1
      rw [R.split, h1] at hnd
      have hx : x ∉ pre := by
        intro hx
        exact (List.nodup_append.1 hnd).2.2 hx (List.mem_cons_self _ _)
      rw [R.rpc]
      show (eraseKeys pre r.queue).lookup x = some a
      rw [lookup_eraseKeys]
      simp [hx, hka]

/-- Witness of C9 amended: the scan task is sent with success and removed. -/
theorem C9_sent_entries_removed_when_ok_witness :
    "library-scan" ∉ (drain netOk world0 rpcScan ["library-scan"]).2.1.queue :=
  (C9_sent_entries_removed_when_ok netOk world0 rpcScan ["library-scan"]
    ⟨by decide, by
      intro k
      have hq : rpcScan.queue = Finmap.singleton "library-scan" 0 := by decide
      rw [hq, Finmap.mem_singleton, List.mem_singleton]⟩
    (drain netOk world0 rpcScan ["library-scan"]).1.log rfl
    { entry := some ("library-scan", 0), pending := rpcScan.queue,
      sent := (request netOk rpcScan 0 (heap0 0)).1,
      result := .ret (some [111, 107], none) }
    (by decide) "library-scan" 0 rfl).1 rfl

/-- C10: for every queue, range order and transport behaviour, a send that
returns an error makes the drain panic with that error at that entry: it is
the last call, the calls before it are the successful sends of the keys
visited earlier, exactly those keys have left the queue, and the failing entry
and every key not yet visited are queued as before.  In every drain, each call
followed by another one returned a nil error and its entry was already out of
the queue when the next call was made. -/
theorem C10_drain_stops_at_failing_send (net : Net) (w : World) (r : JsonRpc)
    (order : List String) (hord : IsRangeOrder r.queue order) (calls : List Call)
    (hlog : (drain net w r order).1.log = w.log ++ calls) :
    List.Chain' (fun c d => c.ok = true ∧ ∀ k a, c.entry = some (k, a) → k ∉ d.pending) calls ∧
    ∀ c ∈ calls, ∀ b e, c.result = .ret (b, some e) →
      (drain net w r order).2.2 = .panic e ∧
      ∃ pre k a post okcalls,
        order = pre ++ k :: post ∧ c.entry = some (k, a) ∧ r.queue.lookup k = some a ∧
        calls = okcalls ++ [c] ∧
        okcalls.map Call.entry = pre.map (entryOf r.queue) ∧
        (∀ d ∈ okcalls, d.ok = true) ∧
        (drain net w r order).2.1 = { r with queue := eraseKeys pre r.queue } ∧
        (∀ x, x ∈ (drain net w r order).2.1.queue ↔ x ∈ r.queue ∧ x ∉ pre) ∧
        (∀ x ∈ k :: post,
          (drain net w r order).2.1.queue.lookup x = r.queue.lookup x) := by
  obtain ⟨calls2, okcalls, pre, post, R⟩ :=
    drain_run net order w r hord.1 (fun k hk => (hord.2 k).1 hk)
  have hcalls : calls = calls2 := List.append_cancel_left (hlog.symm.trans R.log)
  subst hcalls
  refine ⟨R.chain, ?_⟩
  intro c hc b e hres
  have hnok : c.ok = false := by simp [Call.ok, hres]
  have hnot : c ∉ okcalls := by
    intro h
    rw [R.okAll c h] at hnok
    cases hnok
  rcases R.finish with ⟨_, _, h3⟩ | ⟨x, rest, d, e2, h1, h2, h3, _, h5, h6⟩
  · exact absurd (h3 ▸ hc) hnot
  · rw [h2, List.mem_append, List.mem_singleton] at hc
    rcases hc with hc | rfl
    · exact absurd hc hnot
    · have he : e2 = e := by
        rcases h6 with h6 | ⟨b2, h6⟩
        · rw [hres] at h6
          cases h6
        · rw [hres] at h6
          cases h6
          rfl
      subst he
      have hxq : x ∈ r.queue := by
        apply (hord.2 x).1
        rw [R.split, h1]
        simp
      obtain ⟨a, ha⟩ := Finmap.mem_iff.1 hxq
      have hent : c.entry = some (x, a) := by rw [h3]; simp [entryOf, ha]
      have hnd := hord.1
      rw [R.split, h1] at hnd
      have hdisj : ∀ y ∈ x :: rest, y ∉ pre := fun y hy hp =>
        (List.nodup_append.1 hnd).2.2 hp hy
      refine ⟨h5, pre, x, a, rest, okcalls, by rw [R.split, h1], hent, ha, h2, R.okEntries,
        R.okAll, R.rpc, ?_, ?_⟩
      · intro y
        rw [R.rpc]
        show y ∈ eraseKeys pre r.queue ↔ _
        rw [← Finmap.lookup_isSome, lookup_eraseKeys, ← Finmap.lookup_isSome]
        by_cases hy : y ∈ pre <;> simp [hy]
      · intro y hy
        rw [R.rpc]
        show (eraseKeys pre r.queue).lookup y = _
        rw [lookup_eraseKeys]
        simp [hdisj y hy]

/-- Witness of C10: two queued tasks, the first send answered 200 and the
second one dropped; the clean task stays queued. -/
theorem C10_drain_stops_at_failing_send_witness :
    (drain netFirstOnly world0 rpcTwo ["library-scan", "library-clean"]).2.2
      = .panic "connection reset" :=
  ((C10_drain_stops_at_failing_send netFirstOnly world0 rpcTwo ["library-scan", "library-clean"]
    ⟨by decide, by
      intro k
      have hq : rpcTwo.queue =
          Finmap.insert "library-scan" 0 (Finmap.singleton "library-clean" 1) := by decide
      rw [hq, Finmap.mem_insert, Finmap.mem_singleton]
      simp⟩
    (drain netFirstOnly world0 rpcTwo ["library-scan", "library-clean"]).1.log rfl).2
    { entry := some ("library-clean", 1), pending := rpcTwo.queue.erase "library-scan",
      sent := (request netFirstOnly rpcTwo 1 (heap0 1)).1,
      result := .ret (none, some "connection reset") }
    (by decide) none "connection reset" rfl).1

end Kodi
